import Mathlib

/-!
# Verification of the project-bundler file classification and traversal pipeline

Shallow embedding of `main.go` of the `project-bundler` repository.

Modelling conventions:
* file contents are `List Nat` (byte sequences, a zero byte is the value `0`);
* filesystem paths are `List String` (path components); joining a name onto a
  directory path is `++ [name]`, and `filepath.Rel(srcDir, path)` for a path
  beneath `srcDir` is `List.drop` of the `srcDir` component count;
* Go maps (`map[string]string`) are association lists with unique keys, read
  with `List.lookup`; map literals from the source keep their textual order;
* the filesystem tree is the mutual inductive `FSEntry`/`FSList`; a file node
  carries two fault flags mirroring the two I/O operations the walker performs
  on it (`binErr`: `isBinaryFile`'s open/read fails; `readErr`: `os.ReadFile`
  fails), and a directory node carries `enumErr` (directory enumeration fails,
  i.e. `filepath.WalkDir` reports an error for it);
* the output sink (`bufio.Writer` over the output file) is modelled by the set
  `wErr` of paths whose record emission fails: writing the record of a path in
  `wErr` makes the `writer.WriteString`/`writer.Write` sequence return an
  error, which the walk callback propagates;
* the walk state records the emitted Bundle Records, the skip ledger
  (`skippedFiles`, kept as an append-ordered list of reason/path pairs with
  the exact reason strings of the source), and the trace `binChecks` of the
  paths on which `isBinaryFile` was invoked (used to state that the binary
  detector is never consulted for extension-ignored files).
-/

/-- `filepath.Ext(name)`: the suffix beginning at the final dot, including the
dot; empty when the name has no dot.  (Names here are bare entry names and
never contain a path separator.) -/
def fileExt (name : String) : String :=
  let cs := name.toList
  if cs.contains '.' then
    String.mk ('.' :: (cs.reverse.takeWhile (fun c => c ≠ '.')).reverse)
  else ""

/-- `isBinaryFile` (main.go:151-170), the pure part: read up to 1024 bytes
from the start of the file and report whether a zero byte occurs among the
bytes actually read.  The open/read error path of the Go function is the
`binErr` flag on the file node. -/
def isBinaryFile (content : List Nat) : Bool :=
  ((content.take 1024).contains 0)

/-- `baseLangMap` (main.go:27-37). -/
def baseLangMap : List (String × String) :=
  [(".md", "markdown"), (".sh", "shell"), (".json", "json"), (".yml", "yaml"),
   (".yaml", "yaml"), (".toml", "toml"), (".txt", "text"),
   (".gitignore", "text"), (".proto", "protobuf")]

/-- `filenameLangMap` (main.go:39-47). -/
def filenameLangMap : List (String × String) :=
  [("Dockerfile", "dockerfile"), ("Makefile", "makefile"), ("go.mod", "go-mod"),
   ("go.sum", "text"), ("LICENSE", "text"), ("README", "markdown")]

/-- `ProjectConfig` (main.go:20-24). -/
structure ProjectConfig where
  IgnoreDirs : List String
  IgnoreExts : List String
  LangMap : List (String × String)
deriving DecidableEq

/-- `projectConfigs` (main.go:49-103): the preset table. -/
def projectConfigs : List (String × ProjectConfig) :=
  [("generic",
    { IgnoreDirs := [".git"],
      IgnoreExts := [".DS_Store", ".log", ".lock"],
      LangMap := [] }),
   ("android",
    { IgnoreDirs := [".git", ".idea", "build", ".gradle", "gradle"],
      IgnoreExts := [".DS_Store", ".iml", ".jar", ".keystore", ".jks", ".apk",
                     ".aab", ".so", ".png", ".jpg", ".jpeg", ".gif", ".webp"],
      LangMap := [(".java", "java"), (".kt", "kotlin"), (".kts", "kotlin"),
                  (".xml", "xml"), (".gradle", "groovy"), (".pro", "text")] }),
   ("go",
    { IgnoreDirs := [".git", "vendor", "build"],
      IgnoreExts := [".DS_Store", ".exe", ".so", ".a"],
      LangMap := [(".go", "go")] }),
   ("rust",
    { IgnoreDirs := [".git", "target"],
      IgnoreExts := [".DS_Store", ".rlib", ".so", ".a", ".exe"],
      LangMap := [(".rs", "rust")] }),
   ("ios",
    { IgnoreDirs := [".git", ".idea", "Pods", "build", "DerivedData",
                     ".swiftpm", "Carthage"],
      IgnoreExts := [".DS_Store", ".mobileprovision", ".app", ".ipa", ".car",
                     ".xcassets", ".storyboardc", ".nib", ".png", ".jpg",
                     ".jpeg"],
      LangMap := [(".swift", "swift"), (".m", "objectivec"),
                  (".h", "objectivec"), (".storyboard", "xml"),
                  (".xib", "xml"), (".plist", "xml")] })]

/-- Insert one key into an association-list map, overwriting an existing
binding for that key (Go `result[k] = v`). -/
def mapInsert (m : List (String × String)) (k v : String) :
    List (String × String) :=
  if m.any (fun p => p.1 = k) then
    m.map (fun p => if p.1 = k then (k, v) else p)
  else m ++ [(k, v)]

/-- `mergeMaps` (main.go:113-122): combine maps; keys in later maps overwrite
earlier ones. -/
def mergeMaps (maps : List (List (String × String))) : List (String × String) :=
  maps.foldl (fun result m => m.foldl (fun r p => mapInsert r p.1 p.2) result) []

/-- The landmark-file table of `detectProjectType` (main.go:125-131), in
source order.  (Go iterates the map in unspecified order; every landmark's
project type is a key of `projectConfigs`, so the properties proved below do
not depend on the order.) -/
def landmarkFiles : List (String × String) :=
  [("go.mod", "go"), ("Cargo.toml", "rust"), ("build.gradle", "android"),
   ("Package.swift", "ios"), ("Podfile", "ios")]

/-- `detectProjectType` (main.go:124-148).  `rootNames` is the set of entry
names present at the root of `srcDir` (what `os.Stat`/`filepath.Glob` can
see). -/
def detectProjectType (rootNames : List String) : String :=
  match landmarkFiles.find? (fun p => rootNames.contains p.1) with
  | some p => p.2
  | none =>
    if rootNames.any (fun n => n.endsWith ".xcodeproj") then "ios"
    else "generic"

/-- The resolved run configuration of `main` (main.go:198-200):
`ignoreDirs`/`ignoreExts` are the preset's lists taken verbatim
(`newStringSet` preserves membership), `langMap` is the merge of
`baseLangMap` with the preset's override map. -/
structure Config where
  ignoreDirs : List String
  ignoreExts : List String
  langMap : List (String × String)
deriving DecidableEq

/-- Lines 198-200 of `main`: build the run configuration from a preset. -/
def mkRunCfg (pc : ProjectConfig) : Config :=
  { ignoreDirs := pc.IgnoreDirs,
    ignoreExts := pc.IgnoreExts,
    langMap := mergeMaps [baseLangMap, pc.LangMap] }

/-- Lines 188-196 of `main`: resolve the project type (running auto-detection
when the flag is `"auto"`) and look it up in the preset table; `none` is the
`log.Fatalf("Invalid project type ...")` path. -/
def resolveConfig (projectType : String) (rootNames : List String) :
    Option ProjectConfig :=
  let finalProjectType :=
    if projectType = "auto" then detectProjectType rootNames else projectType
  (projectConfigs.lookup finalProjectType)

/-- Language resolution (main.go:258-266): extension lookup in the merged
map, then exact-filename lookup in `filenameLangMap`, then `"text"`. -/
def resolveLang (langMap : List (String × String)) (name : String) : String :=
  match langMap.lookup (fileExt name) with
  | some lang => lang
  | none =>
    match filenameLangMap.lookup name with
    | some lang => lang
    | none => "text"

/-- One Bundle Record: relative path, language tag, raw content. -/
structure BundleRecord where
  relativePath : List String
  languageTag : String
  content : List Nat
deriving DecidableEq

/-- The mutable state of one walk: emitted records in order, the skip ledger
(`skippedFiles`) as appended, and the trace of paths on which `isBinaryFile`
was invoked. -/
structure WalkState where
  records : List BundleRecord
  ledger : List (String × List String)
  binChecks : List (List String)
deriving DecidableEq

mutual
/-- A filesystem entry: a file (name, content, fault flags) or a directory
(name, enumeration-fault flag, children). -/
inductive FSEntry where
  | file (name : String) (content : List Nat) (binErr readErr : Bool) : FSEntry
  | dir (name : String) (enumErr : Bool) (entries : FSList) : FSEntry

/-- A list of filesystem entries (mutual with `FSEntry`). -/
inductive FSList where
  | nil : FSList
  | cons (e : FSEntry) (rest : FSList) : FSList
end

/-- Convert an ordinary list of entries to an `FSList`. -/
def FSList.ofList : List FSEntry → FSList
  | [] => .nil
  | e :: es => .cons e (FSList.ofList es)

mutual
/-- No directory in this entry's subtree has an enumeration fault. -/
def noEnumErr : FSEntry → Bool
  | .file _ _ _ _ => true
  | .dir _ enumErr entries => !enumErr && noEnumErrList entries

/-- `noEnumErr` over a list of entries. -/
def noEnumErrList : FSList → Bool
  | .nil => true
  | .cons e rest => noEnumErr e && noEnumErrList rest
end

/-- The file branch of the `WalkDir` callback (main.go:230-272): ignored
extension/name check, binary detection (with its error path), binary skip,
full read (with its error path), language resolution, relative path, and
record emission (whose write can fail, aborting the walk).  `rootLen` is the
component count of `srcDir`; `wErr` is the set of paths whose record emission
fails. -/
def processFile (cfg : Config) (wErr : List (List String)) (rootLen : Nat)
    (path : List String) (name : String) (content : List Nat)
    (binErr readErr : Bool) (st : WalkState) : Except Unit WalkState :=
  if cfg.ignoreExts.contains (fileExt name) || cfg.ignoreExts.contains name then
    .ok { st with ledger := st.ledger ++ [("Ignored Extension/File", path)] }
  -- From here on isBinaryFile has been invoked, so `path` joins `binChecks`.
  else if binErr then
    .ok { st with ledger := st.ledger ++ [("File Read Error", path)],
                  binChecks := st.binChecks ++ [path] }
  else if isBinaryFile content then
    .ok { st with ledger := st.ledger ++ [("Detected Binary Content", path)],
                  binChecks := st.binChecks ++ [path] }
  else if readErr then
    .ok { st with ledger := st.ledger ++ [("File Read Error", path)],
                  binChecks := st.binChecks ++ [path] }
  else if wErr.contains path then
    .error ()
  else
    .ok { st with binChecks := st.binChecks ++ [path],
                  records := st.records ++
                    [{ relativePath := path.drop rootLen,
                       languageTag := resolveLang cfg.langMap name,
                       content := content }] }

mutual
/-- `filepath.WalkDir` combined with the callback of `main` (main.go:216-272):
visit one entry under `parent`.  A directory whose bare name is in
`ignoreDirs` is recorded in the ledger and pruned (`filepath.SkipDir`); a
directory whose enumeration fails makes the callback return the error, which
aborts the walk; otherwise its children are visited in order. -/
def walkEntry (cfg : Config) (wErr : List (List String)) (rootLen : Nat)
    (parent : List String) : FSEntry → WalkState → Except Unit WalkState
  | .file name content binErr readErr, st =>
    processFile cfg wErr rootLen (parent ++ [name]) name content binErr readErr st
  | .dir name enumErr entries, st =>
    if cfg.ignoreDirs.contains name then
      .ok { st with ledger := st.ledger ++ [("Ignored Directory", parent ++ [name])] }
    else if enumErr then
      .error ()
    else
      walkEntries cfg wErr rootLen (parent ++ [name]) entries st

/-- Visit a directory's children in order, stopping at the first error. -/
def walkEntries (cfg : Config) (wErr : List (List String)) (rootLen : Nat)
    (parent : List String) : FSList → WalkState → Except Unit WalkState
  | .nil, st => .ok st
  | .cons e rest, st =>
    match walkEntry cfg wErr rootLen parent e st with
    | .error u => .error u
    | .ok st2 => walkEntries cfg wErr rootLen parent rest st2
end

/-- One full run of the walk (main.go:216-290): `filepath.WalkDir(srcDir, ...)`
where `srcDir = rootParent ++ [root's name]`, starting from the empty state.
`.error ()` is the `log.Fatalf("Error during directory walk: ...")` path. -/
def runWalk (cfg : Config) (wErr : List (List String))
    (rootParent : List String) (root : FSEntry) : Except Unit WalkState :=
  walkEntry cfg wErr (rootParent.length + 1) rootParent root
    { records := [], ledger := [], binChecks := [] }

/-- C1: the binary detector reads at most the first 1024 bytes: a zero byte
among the first 1024 bytes classifies the file binary; when no zero byte
occurs among the first 1024 bytes the file is classified text, no matter what
bytes follow (e.g. a zero at byte 2000); the empty file is classified text. -/
theorem isBinaryFile_first_kilobyte (bs : List Nat) :
    ((∃ i, i < 1024 ∧ bs[i]? = some 0) → isBinaryFile bs = true)
    ∧ ((∀ i, i < 1024 → bs[i]? ≠ some 0) → isBinaryFile bs = false)
    ∧ isBinaryFile [] = false := by
  refine ⟨?_, ?_, by decide⟩
  · rintro ⟨i, hi, hget⟩
    have htake : (bs.take 1024)[i]? = some 0 := by
      rw [List.getElem?_take_of_lt hi]; exact hget
    have hmem : (0 : Nat) ∈ bs.take 1024 := List.mem_iff_getElem?.mpr ⟨i, htake⟩
    simpa [isBinaryFile, List.contains] using hmem
  · intro h
    rcases Bool.eq_false_or_eq_true (isBinaryFile bs) with ht | hf
    · exfalso
      have hmem : (0 : Nat) ∈ bs.take 1024 := by
        simpa [isBinaryFile, List.contains] using ht
      rcases List.mem_iff_getElem?.mp hmem with ⟨n, hn⟩
      have hlen : n < (bs.take 1024).length := (List.getElem?_eq_some_iff.mp hn).1
      have hlt : n < 1024 := by
        rw [List.length_take] at hlen; omega
      have hc : bs[n]? = some 0 := by
        rw [← List.getElem?_take_of_lt hlt]; exact hn
      exact h n hlt hc
    · exact hf

/-- Witness for C1 at concrete inputs: `[1, 0, 2]` is binary, and a file of
1024 non-zero bytes followed by a zero byte is text. -/
theorem isBinaryFile_first_kilobyte_witness :
    isBinaryFile [1, 0, 2] = true
    ∧ isBinaryFile (List.replicate 1024 1 ++ [0]) = false :=
  ⟨(isBinaryFile_first_kilobyte [1, 0, 2]).1 ⟨1, by decide, by decide⟩,
   (isBinaryFile_first_kilobyte (List.replicate 1024 1 ++ [0])).2.1
     (fun i hi => by
       have hrepl : (List.replicate 1024 (1 : Nat) ++ [0])[i]? = some 1 := by
         rw [List.getElem?_append, List.length_replicate, if_pos hi,
             List.getElem?_replicate_of_lt hi]
       rw [hrepl]
       intro hcontra
       exact Option.noConfusion hcontra (fun h1 => Nat.noConfusion h1))⟩

/-- C4: language resolution over the merged map is total and deterministic
with precedence extension, then exact filename, then `"text"`; matching is
exact lookup, so an extension hit always beats a filename hit. -/
theorem resolveLang_precedence (pc : ProjectConfig) (name : String) :
    (∀ v, (mergeMaps [baseLangMap, pc.LangMap]).lookup (fileExt name) = some v →
      resolveLang (mergeMaps [baseLangMap, pc.LangMap]) name = v)
    ∧ ((mergeMaps [baseLangMap, pc.LangMap]).lookup (fileExt name) = none →
        ∀ v, filenameLangMap.lookup name = some v →
          resolveLang (mergeMaps [baseLangMap, pc.LangMap]) name = v)
    ∧ ((mergeMaps [baseLangMap, pc.LangMap]).lookup (fileExt name) = none →
        filenameLangMap.lookup name = none →
          resolveLang (mergeMaps [baseLangMap, pc.LangMap]) name = "text") := by
  refine ⟨?_, ?_, ?_⟩
  · intro v h; unfold resolveLang; rw [h]
  · intro h v h2; unfold resolveLang; rw [h, h2]
  · intro h h2; unfold resolveLang; rw [h, h2]

/-- Witness for C4 with the generic preset: `a.md` resolves by extension,
`Dockerfile` by filename (its extension is absent from the merged map), and
`notes.xyz` falls through to `"text"`. -/
theorem resolveLang_precedence_witness :
    resolveLang (mergeMaps [baseLangMap, ProjectConfig.LangMap
        { IgnoreDirs := [".git"], IgnoreExts := [".DS_Store", ".log", ".lock"],
          LangMap := [] }]) "a.md" = "markdown"
    ∧ resolveLang (mergeMaps [baseLangMap, ProjectConfig.LangMap
        { IgnoreDirs := [".git"], IgnoreExts := [".DS_Store", ".log", ".lock"],
          LangMap := [] }]) "Dockerfile" = "dockerfile"
    ∧ resolveLang (mergeMaps [baseLangMap, ProjectConfig.LangMap
        { IgnoreDirs := [".git"], IgnoreExts := [".DS_Store", ".log", ".lock"],
          LangMap := [] }]) "notes.xyz" = "text" :=
  ⟨(resolveLang_precedence _ "a.md").1 "markdown" (by decide),
   (resolveLang_precedence _ "Dockerfile").2.1 (by decide) "dockerfile" (by decide),
   (resolveLang_precedence _ "notes.xyz").2.2 (by decide) (by decide)⟩

/-- Replacing every binding of key `k` leaves lookups of other keys alone. -/
theorem lookup_map_replace (m : List (String × String)) (k v k' : String)
    (hne : ¬ k' = k) :
    (m.map (fun p => if p.1 = k then (k, v) else p)).lookup k' = m.lookup k' := by
  induction m with
  | nil => rfl
  | cons p t ih =>
    obtain ⟨a, b⟩ := p
    by_cases hp : a = k
    · subst hp
      have h2 : (k' == a) = false := by
        simp only [beq_eq_false_iff_ne, ne_eq]; exact hne
      simp [List.lookup_cons, h2, ih]
    · cases hk : k' == a <;> simp [List.lookup_cons, hp, hk, ih]

/-- Replacing the bindings of key `k` by `(k, v)` makes `k` look up to `v`,
provided `k` was bound in the map. -/
theorem lookup_map_replace_self (m : List (String × String)) (k v : String)
    (hany : m.any (fun p => p.1 = k) = true) :
    (m.map (fun p => if p.1 = k then (k, v) else p)).lookup k = some v := by
  induction m with
  | nil => simp at hany
  | cons p t ih =>
    obtain ⟨a, b⟩ := p
    by_cases hp : a = k
    · subst hp
      simp [List.lookup_cons]
    · have ht : t.any (fun p => p.1 = k) = true := by
        simpa [List.any_cons, hp] using hany
      have h1 : (k == a) = false := by
        simp only [beq_eq_false_iff_ne, ne_eq]
        exact fun e => hp e.symm
      simp [List.lookup_cons, hp, h1, ih ht]

/-- Appending a fresh binding `(k, v)` makes `k` look up to `v` when no
binding for `k` was present. -/
theorem lookup_append_of_not_any (m : List (String × String)) (k v : String)
    (h : m.any (fun p => p.1 = k) = false) :
    (m ++ [(k, v)]).lookup k = some v := by
  induction m with
  | nil => simp [List.lookup_cons]
  | cons p t ih =>
    obtain ⟨a, b⟩ := p
    rw [List.any_cons] at h
    have hsplit := Bool.or_eq_false_iff.mp h
    have hp : ¬ a = k := by simpa using hsplit.1
    have h1 : (k == a) = false := by
      simp only [beq_eq_false_iff_ne, ne_eq]
      exact fun e => hp e.symm
    simp [List.lookup_cons, h1, ih hsplit.2]

/-- Appending a binding for `k` leaves lookups of other keys alone. -/
theorem lookup_append_other (m : List (String × String)) (k v k' : String)
    (hne : ¬ k' = k) :
    (m ++ [(k, v)]).lookup k' = m.lookup k' := by
  induction m with
  | nil =>
    have h1 : (k' == k) = false := by
      simp only [beq_eq_false_iff_ne, ne_eq]; exact hne
    simp [List.lookup_cons, h1]
  | cons p t ih =>
    obtain ⟨a, b⟩ := p
    cases hk : k' == a <;> simp [List.lookup_cons, hk, ih]

/-- `mapInsert` binds `k` to `v`. -/
theorem mapInsert_lookup_self (m : List (String × String)) (k v : String) :
    (mapInsert m k v).lookup k = some v := by
  unfold mapInsert
  by_cases h : m.any (fun p => p.1 = k) = true
  · rw [if_pos h]
    exact lookup_map_replace_self m k v h
  · have hf : m.any (fun p => p.1 = k) = false := by
      rcases Bool.eq_false_or_eq_true (m.any (fun p => p.1 = k)) with h1 | h1
      · exact absurd h1 h
      · exact h1
    rw [if_neg h]
    exact lookup_append_of_not_any m k v hf

/-- `mapInsert` leaves other keys alone. -/
theorem mapInsert_lookup_other (m : List (String × String)) (k v k' : String)
    (hne : ¬ k' = k) :
    (mapInsert m k v).lookup k' = m.lookup k' := by
  unfold mapInsert
  split
  · exact lookup_map_replace m k v k' hne
  · exact lookup_append_other m k v k' hne

/-- The inner fold of `mergeMaps`: insert every binding of `l` into `m`. -/
def insertAll (m l : List (String × String)) : List (String × String) :=
  l.foldl (fun r p => mapInsert r p.1 p.2) m

/-- Folding in bindings for keys other than `k` leaves `k`'s lookup alone. -/
theorem insertAll_lookup_of_not_key (l : List (String × String)) (k : String)
    (h : ¬ k ∈ l.map Prod.fst) :
    ∀ m, (insertAll m l).lookup k = m.lookup k := by
  induction l with
  | nil => intro m; rfl
  | cons p t ih =>
    intro m
    have h1 : ¬ k = p.1 := fun e => h (by simp [e])
    have h2 : ¬ k ∈ t.map Prod.fst := fun e => h (by simp [e])
    have hstep : insertAll m (p :: t) = insertAll (mapInsert m p.1 p.2) t := rfl
    rw [hstep, ih h2, mapInsert_lookup_other _ _ _ _ h1]

/-- Folding in a list of bindings with pairwise-distinct keys binds each of
its keys to its value, whatever map it starts from. -/
theorem insertAll_lookup_mem (l : List (String × String)) (k v : String)
    (hnd : (l.map Prod.fst).Nodup) (hmem : (k, v) ∈ l) :
    ∀ m, (insertAll m l).lookup k = some v := by
  induction l with
  | nil => cases hmem
  | cons p t ih =>
    intro m
    rw [List.map_cons] at hnd
    have hnd' := List.nodup_cons.mp hnd
    have hstep : insertAll m (p :: t) = insertAll (mapInsert m p.1 p.2) t := rfl
    rcases List.mem_cons.mp hmem with heq | hmem'
    · subst heq
      rw [hstep, insertAll_lookup_of_not_key t k hnd'.1]
      exact mapInsert_lookup_self m k v
    · rw [hstep]
      exact ih hnd'.2 hmem' _

/-- C8: in the merged language map, a key bound by the per-project override
map resolves to the override's value, a key bound only by the base map
resolves to the base map's value, and the ignore-directory and
ignore-extension sets of the run configuration are the preset's verbatim. -/
theorem mergeMaps_override_wins (base override : List (String × String))
    (k v : String) (pc : ProjectConfig) :
    ((override.map Prod.fst).Nodup → (k, v) ∈ override →
      (mergeMaps [base, override]).lookup k = some v)
    ∧ (¬ k ∈ override.map Prod.fst → (base.map Prod.fst).Nodup → (k, v) ∈ base →
      (mergeMaps [base, override]).lookup k = some v)
    ∧ (mkRunCfg pc).ignoreDirs = pc.IgnoreDirs
    ∧ (mkRunCfg pc).ignoreExts = pc.IgnoreExts := by
  have hrep : mergeMaps [base, override] = insertAll (insertAll [] base) override := rfl
  refine ⟨?_, ?_, rfl, rfl⟩
  · intro hnd hmem
    rw [hrep]
    exact insertAll_lookup_mem override k v hnd hmem _
  · intro hk hnd hmem
    rw [hrep, insertAll_lookup_of_not_key override k hk]
    exact insertAll_lookup_mem base k v hnd hmem _

/-- Witness for C8: with base `baseLangMap` and an override rebinding `".md"`,
the override's value wins, and `".sh"` (bound only in the base) keeps the
base value. -/
theorem mergeMaps_override_wins_witness :
    (mergeMaps [baseLangMap, [(".md", "mkd")]]).lookup ".md" = some "mkd"
    ∧ (mergeMaps [baseLangMap, [(".md", "mkd")]]).lookup ".sh" = some "shell" :=
  ⟨(mergeMaps_override_wins baseLangMap [(".md", "mkd")] ".md" "mkd"
      ⟨[], [], []⟩).1 (by decide) (by decide),
   (mergeMaps_override_wins baseLangMap [(".md", "mkd")] ".sh" "shell"
      ⟨[], [], []⟩).2.1 (by decide) (by decide) (by decide)⟩

/-- C10: auto-detection always lands on a key of the preset table (falling
back to `"generic"`), so for an `"auto"`-typed run the configuration lookup
always succeeds and the fatal invalid-project-type error is unreachable;
it can only fire for an explicitly supplied unknown type string. -/
theorem auto_type_always_valid (rootNames : List String) :
    (projectConfigs.lookup (detectProjectType rootNames)).isSome = true
    ∧ (resolveConfig "auto" rootNames).isSome = true := by
  have h : (projectConfigs.lookup (detectProjectType rootNames)).isSome = true := by
    unfold detectProjectType
    cases hf : landmarkFiles.find? (fun p => rootNames.contains p.1) with
    | none =>
      by_cases hx : rootNames.any (fun n => n.endsWith ".xcodeproj") = true
      · simp only [hx, if_true]; decide
      · have hx' : rootNames.any (fun n => n.endsWith ".xcodeproj") = false := by
          rcases Bool.eq_false_or_eq_true (rootNames.any (fun n => n.endsWith ".xcodeproj")) with h1 | h1
          · exact absurd h1 hx
          · exact h1
        simp only [hx', Bool.false_eq_true, if_false]; decide
    | some p =>
      have hp : p ∈ landmarkFiles := List.mem_of_find?_eq_some hf
      simp only [landmarkFiles, List.mem_cons, List.not_mem_nil, or_false] at hp
      rcases hp with rfl | rfl | rfl | rfl | rfl
      · show (projectConfigs.lookup "go").isSome = true; decide
      · show (projectConfigs.lookup "rust").isSome = true; decide
      · show (projectConfigs.lookup "android").isSome = true; decide
      · show (projectConfigs.lookup "ios").isSome = true; decide
      · show (projectConfigs.lookup "ios").isSome = true; decide
  exact ⟨h, by simpa [resolveConfig] using h⟩

/-- C2: a directory entry whose bare name is in `ignoreDirs` is pruned whole:
the walk returns immediately with the records, the binary-check trace and the
rest of the ledger untouched, and only the directory's own path appended to
the ledger under the ignored-directory reason — so nothing beneath it is ever
visited, emitted or ledgered. -/
theorem ignored_dir_prunes_subtree (cfg : Config) (wErr : List (List String))
    (rootLen : Nat) (parent : List String) (name : String) (enumErr : Bool)
    (entries : FSList) (st : WalkState)
    (h : cfg.ignoreDirs.contains name = true) :
    walkEntry cfg wErr rootLen parent (.dir name enumErr entries) st =
      .ok { st with
              ledger := st.ledger ++ [("Ignored Directory", parent ++ [name])] } := by
  have hmem : name ∈ cfg.ignoreDirs := by simpa using h
  simp [walkEntry, hmem]

/-- Witness for C2: pruning a `vendor` directory with non-empty contents. -/
theorem ignored_dir_prunes_subtree_witness :
    (Config.mk ["vendor"] [] []).ignoreDirs.contains "vendor" = true
    ∧ walkEntry ⟨["vendor"], [], []⟩ [] 1 ["p"]
        (.dir "vendor" false (.cons (.file "b.go" [0] false false) .nil))
        ⟨[], [], []⟩
      = .ok ⟨[], [("Ignored Directory", ["p", "vendor"])], []⟩ :=
  ⟨by decide,
   ignored_dir_prunes_subtree ⟨["vendor"], [], []⟩ [] 1 ["p"] "vendor" false
     (.cons (.file "b.go" [0] false false) .nil) ⟨[], [], []⟩ (by decide)⟩

/-- C3: a file whose extension or full name is in `ignoreExts` is skipped at
once under the ignored-extension reason, with the binary-check trace
untouched: the binary detector is never invoked and no content is read. -/
theorem ignored_ext_skips_binary_check (cfg : Config)
    (wErr : List (List String)) (rootLen : Nat) (parent : List String)
    (name : String) (content : List Nat) (binErr readErr : Bool)
    (st : WalkState)
    (h : (cfg.ignoreExts.contains (fileExt name)
          || cfg.ignoreExts.contains name) = true) :
    walkEntry cfg wErr rootLen parent (.file name content binErr readErr) st =
      .ok { st with
              ledger := st.ledger ++
                [("Ignored Extension/File", parent ++ [name])] } := by
  have hmem : fileExt name ∈ cfg.ignoreExts ∨ name ∈ cfg.ignoreExts := by
    simpa using h
  rcases hmem with hm | hm <;> simp [walkEntry, processFile, hm]

/-- Witness for C3: a `.log` file is skipped without a binary check. -/
theorem ignored_ext_skips_binary_check_witness :
    ((Config.mk [] [".log"] []).ignoreExts.contains (fileExt "trace.log")
      || (Config.mk [] [".log"] []).ignoreExts.contains "trace.log") = true
    ∧ walkEntry ⟨[], [".log"], []⟩ [] 1 ["p"]
        (.file "trace.log" [0] false false) ⟨[], [], []⟩
      = .ok ⟨[], [("Ignored Extension/File", ["p", "trace.log"])], []⟩ :=
  ⟨by decide,
   ignored_ext_skips_binary_check ⟨[], [".log"], []⟩ [] 1 ["p"] "trace.log"
     [0] false false ⟨[], [], []⟩ (by decide)⟩

/-- C6: an I/O error during the binary check (`binErr`), or during the full
content read (`readErr`, reached when the file is not ignored and not
binary), appends the file's path to the ledger under the read-error reason
and returns `.ok` — the walk continues and no Bundle Record is produced. -/
theorem read_error_isolated (cfg : Config) (wErr : List (List String))
    (rootLen : Nat) (parent : List String) (name : String)
    (content : List Nat) (st : WalkState)
    (h : (cfg.ignoreExts.contains (fileExt name)
          || cfg.ignoreExts.contains name) = false) :
    (∀ readErr,
      walkEntry cfg wErr rootLen parent (.file name content true readErr) st =
        .ok { st with
                ledger := st.ledger ++ [("File Read Error", parent ++ [name])],
                binChecks := st.binChecks ++ [parent ++ [name]] })
    ∧ (isBinaryFile content = false →
        walkEntry cfg wErr rootLen parent (.file name content false true) st =
          .ok { st with
                  ledger := st.ledger ++ [("File Read Error", parent ++ [name])],
                  binChecks := st.binChecks ++ [parent ++ [name]] }) := by
  have hmem : ¬ fileExt name ∈ cfg.ignoreExts ∧ ¬ name ∈ cfg.ignoreExts := by
    simpa using h
  constructor
  · intro readErr
    simp [walkEntry, processFile, hmem.1, hmem.2]
  · intro hb
    simp [walkEntry, processFile, hmem.1, hmem.2, hb]

/-- Witness for C6: both failure points on a plain text file. -/
theorem read_error_isolated_witness :
    ((Config.mk [] [] []).ignoreExts.contains (fileExt "a.md")
      || (Config.mk [] [] []).ignoreExts.contains "a.md") = false
    ∧ walkEntry ⟨[], [], []⟩ [] 1 ["p"] (.file "a.md" [104] true false)
        ⟨[], [], []⟩
      = .ok ⟨[], [("File Read Error", ["p", "a.md"])], [["p", "a.md"]]⟩
    ∧ walkEntry ⟨[], [], []⟩ [] 1 ["p"] (.file "a.md" [104] false true)
        ⟨[], [], []⟩
      = .ok ⟨[], [("File Read Error", ["p", "a.md"])], [["p", "a.md"]]⟩ :=
  ⟨by decide,
   (read_error_isolated ⟨[], [], []⟩ [] 1 ["p"] "a.md" [104] ⟨[], [], []⟩
      (by decide)).1 false,
   (read_error_isolated ⟨[], [], []⟩ [] 1 ["p"] "a.md" [104] ⟨[], [], []⟩
      (by decide)).2 (by decide)⟩

/-- C9: when the bare name of the source root itself is in `ignoreDirs`, the
whole run prunes at the root: it completes with no Bundle Record, no binary
check, and a ledger holding exactly the root's path under the
ignored-directory reason. -/
theorem root_ignored_prunes_all (cfg : Config) (wErr : List (List String))
    (rootParent : List String) (name : String) (enumErr : Bool)
    (entries : FSList)
    (h : cfg.ignoreDirs.contains name = true) :
    runWalk cfg wErr rootParent (.dir name enumErr entries) =
      .ok { records := [],
            ledger := [("Ignored Directory", rootParent ++ [name])],
            binChecks := [] } := by
  have hmem : name ∈ cfg.ignoreDirs := by simpa using h
  simp [runWalk, walkEntry, hmem]

/-- Witness for C9: a Go-preset-style run rooted at a directory named
`vendor`. -/
theorem root_ignored_prunes_all_witness :
    (Config.mk ["vendor"] [] []).ignoreDirs.contains "vendor" = true
    ∧ runWalk ⟨["vendor"], [], []⟩ [] ["home"]
        (.dir "vendor" false (.cons (.file "a.go" [104] false false) .nil))
      = .ok ⟨[], [("Ignored Directory", ["home", "vendor"])], []⟩ :=
  ⟨by decide,
   root_ignored_prunes_all ⟨["vendor"], [], []⟩ [] ["home"] "vendor" false
     (.cons (.file "a.go" [104] false false) .nil) (by decide)⟩

/-- Success check for a walk result (`filepath.WalkDir` returned `nil`). -/
def walkOk : Except Unit WalkState → Bool
  | .ok _ => true
  | .error _ => false

mutual
/-- With no sink write faults, walking an entry whose subtree carries no
directory-enumeration fault always succeeds, whatever per-file faults its
files carry. -/
theorem walkEntry_ok_of_noEnumErr (cfg : Config) (rootLen : Nat) :
    ∀ (e : FSEntry) (parent : List String) (st : WalkState),
      noEnumErr e = true → walkOk (walkEntry cfg [] rootLen parent e st) = true
  | .file n c b r, parent, st, _ => by
      unfold walkEntry processFile
      repeat' split
      all_goals simp_all [walkOk]
  | .dir n eErr entries, parent, st, h => by
      have h' : eErr = false ∧ noEnumErrList entries = true := by
        simpa [noEnumErr] using h
      by_cases hig : n ∈ cfg.ignoreDirs
      · simp [walkEntry, hig, walkOk]
      · simp only [walkEntry]
        rw [if_neg (by simpa using hig), h'.1, if_neg (by simp)]
        exact walkEntries_ok_of_noEnumErr cfg rootLen entries (parent ++ [n]) st h'.2

/-- `walkEntry_ok_of_noEnumErr` over a list of entries. -/
theorem walkEntries_ok_of_noEnumErr (cfg : Config) (rootLen : Nat) :
    ∀ (l : FSList) (parent : List String) (st : WalkState),
      noEnumErrList l = true → walkOk (walkEntries cfg [] rootLen parent l st) = true
  | .nil, _, _, _ => rfl
  | .cons e rest, parent, st, h => by
      have h' : noEnumErr e = true ∧ noEnumErrList rest = true := by
        simpa [noEnumErrList] using h
      have he := walkEntry_ok_of_noEnumErr cfg rootLen e parent st h'.1
      simp only [walkEntries]
      cases hres : walkEntry cfg [] rootLen parent e st with
      | error u => rw [hres] at he; simp [walkOk] at he
      | ok st2 =>
          exact walkEntries_ok_of_noEnumErr cfg rootLen rest parent st2 h'.2
end

/-- Counterexample to C5 as stated: a run whose tree has no
directory-enumeration fault (and whose single file reads fine) still aborts
when the output sink fails while the file's record is being written
(main.go:274-281 propagate the write error out of the callback, and
main.go:284-286 make it fatal).  So a condition other than a structural
enumeration error aborts a run after traversal has begun. -/
theorem walk_write_error_aborts :
    noEnumErr (.dir "p" false (.cons (.file "a.md" [104] false false) .nil)) = true
    ∧ runWalk ⟨[], [], []⟩ [["p", "a.md"]] []
        (.dir "p" false (.cons (.file "a.md" [104] false false) .nil))
      = .error () :=
  ⟨rfl, rfl⟩

/-- C5 (amended): per-file failures (binary-check and content-read faults)
are isolated to their file and never abort the walk; once traversal has
begun, the run can only abort on a structural directory-enumeration error or
on an output-sink write error.  Formally: with no sink write faults, a walk
over a tree with no enumeration faults always completes, whatever per-file
fault flags its files carry. -/
theorem walk_fatal_only_structural_or_write (cfg : Config)
    (rootParent : List String) (root : FSEntry)
    (h : noEnumErr root = true) :
    walkOk (runWalk cfg [] rootParent root) = true :=
  walkEntry_ok_of_noEnumErr cfg (rootParent.length + 1) root rootParent
    { records := [], ledger := [], binChecks := [] } h

/-- Witness for C5 (amended): a run over a tree holding a good file, a file
whose binary check fails and a file whose content read fails completes. -/
theorem walk_fatal_only_structural_or_write_witness :
    noEnumErr (.dir "p" false
      (.cons (.file "a.md" [104] false false)
        (.cons (.file "b.md" [104] true false)
          (.cons (.file "c.md" [104] false true) .nil)))) = true
    ∧ walkOk (runWalk ⟨[], [], []⟩ [] []
        (.dir "p" false
          (.cons (.file "a.md" [104] false false)
            (.cons (.file "b.md" [104] true false)
              (.cons (.file "c.md" [104] false true) .nil))))) = true :=
  ⟨rfl,
   walk_fatal_only_structural_or_write ⟨[], [], []⟩ []
     (.dir "p" false
       (.cons (.file "a.md" [104] false false)
         (.cons (.file "b.md" [104] true false)
           (.cons (.file "c.md" [104] false true) .nil)))) rfl⟩

mutual
/-- A walk step that succeeds does not depend on the sink's failure set: the
same step with a failure-free sink succeeds with the same state. -/
theorem walkEntry_sink_irrel (cfg : Config) (wErr : List (List String))
    (rootLen : Nat) :
    ∀ (e : FSEntry) (parent : List String) (st s : WalkState),
      walkEntry cfg wErr rootLen parent e st = .ok s →
      walkEntry cfg [] rootLen parent e st = .ok s
  | .file n c b r, parent, st, s, h => by
      unfold walkEntry processFile at h ⊢
      by_cases hig : fileExt n ∈ cfg.ignoreExts ∨ n ∈ cfg.ignoreExts
      · rcases hig with hm | hm <;> simp_all
      · rw [not_or] at hig
        cases b
        · by_cases hbin : isBinaryFile c = true
          · simp_all
          · cases r
            · by_cases hw : parent ++ [n] ∈ wErr
              · simp_all
              · simp_all
            · simp_all
        · simp_all
  | .dir n eErr entries, parent, st, s, h => by
      by_cases hig : n ∈ cfg.ignoreDirs
      · simp_all [walkEntry]
      · cases eErr
        · simp only [walkEntry] at h ⊢
          rw [if_neg (by simpa using hig), if_neg (by simp)] at h ⊢
          exact walkEntries_sink_irrel cfg wErr rootLen entries (parent ++ [n]) st s h
        · simp_all [walkEntry]

/-- `walkEntry_sink_irrel` over a list of entries. -/
theorem walkEntries_sink_irrel (cfg : Config) (wErr : List (List String))
    (rootLen : Nat) :
    ∀ (l : FSList) (parent : List String) (st s : WalkState),
      walkEntries cfg wErr rootLen parent l st = .ok s →
      walkEntries cfg [] rootLen parent l st = .ok s
  | .nil, _, _, _, h => h
  | .cons e rest, parent, st, s, h => by
      simp only [walkEntries] at h ⊢
      cases hres : walkEntry cfg wErr rootLen parent e st with
      | error u => rw [hres] at h; simp at h
      | ok st2 =>
          rw [hres] at h
          rw [walkEntry_sink_irrel cfg wErr rootLen e parent st st2 hres]
          exact walkEntries_sink_irrel cfg wErr rootLen rest parent st2 s h
end

/-- C7: the Bundle Records (and the skip ledger) of a completed run are a
deterministic function of the tree and the configuration: two completed runs
over the same unchanged tree with the same configuration produce identical
records — same relative paths, same language tags, same content — whatever
sink-failure behavior each run's output file exhibited. -/
theorem walk_records_deterministic (cfg : Config) (rootParent : List String)
    (root : FSEntry) (w1 w2 : List (List String)) (s1 s2 : WalkState)
    (h1 : runWalk cfg w1 rootParent root = .ok s1)
    (h2 : runWalk cfg w2 rootParent root = .ok s2) :
    s1.records = s2.records ∧ s1.ledger = s2.ledger := by
  have e1 := walkEntry_sink_irrel cfg w1 (rootParent.length + 1) root
    rootParent { records := [], ledger := [], binChecks := [] } s1 h1
  have e2 := walkEntry_sink_irrel cfg w2 (rootParent.length + 1) root
    rootParent { records := [], ledger := [], binChecks := [] } s2 h2
  rw [e1] at e2
  cases e2
  exact ⟨rfl, rfl⟩

/-- Witness for C7: two runs over the same one-file tree, one with a clean
sink and one whose sink would fail on a path that is never written, agree. -/
theorem walk_records_deterministic_witness :
    runWalk ⟨[], [], []⟩ [] []
      (.dir "p" false (.cons (.file "a.md" [104] false false) .nil))
      = .ok ⟨[⟨["a.md"], "text", [104]⟩], [], [["p", "a.md"]]⟩
    ∧ runWalk ⟨[], [], []⟩ [["zz"]] []
      (.dir "p" false (.cons (.file "a.md" [104] false false) .nil))
      = .ok ⟨[⟨["a.md"], "text", [104]⟩], [], [["p", "a.md"]]⟩
    ∧ (WalkState.mk [⟨["a.md"], "text", [104]⟩] [] [["p", "a.md"]]).records
        = (WalkState.mk [⟨["a.md"], "text", [104]⟩] [] [["p", "a.md"]]).records
    ∧ (WalkState.mk [⟨["a.md"], "text", [104]⟩] [] [["p", "a.md"]]).ledger
        = (WalkState.mk [⟨["a.md"], "text", [104]⟩] [] [["p", "a.md"]]).ledger :=
  ⟨rfl, rfl,
   (walk_records_deterministic ⟨[], [], []⟩ []
      (.dir "p" false (.cons (.file "a.md" [104] false false) .nil))
      [] [["zz"]] _ _ rfl rfl).1,
   (walk_records_deterministic ⟨[], [], []⟩ []
      (.dir "p" false (.cons (.file "a.md" [104] false false) .nil))
      [] [["zz"]] _ _ rfl rfl).2⟩
